import Mathlib

/-!
Verification of the `confused` dependency-confusion scanner (Go sources under
`src/`) against its natural-language specification.

Shallow embedding conventions:
* Go strings are modelled as `String` or `List Char` (the latter where the
  claims need character-level reasoning).
* An HTTP GET is modelled by an oracle argument: `HttpResult` is the outcome
  of one request (`status code` or a transport-level error, i.e. the
  `err != nil` branch of `http.Get`).  A resolver's availability check is a
  function of such an oracle, indexed by the retry counter with which the
  request is made (the counter increases by one per request, so the index is
  also the request's ordinal).
* Calls into external libraries (`xml.Unmarshal`, `filepath.Match`,
  `json` body inspection) are passed in as parameters or modelled from the
  spec, clearly marked; everything else is translated from the Go sources.
* Wall-clock sleeping (`time.Sleep(10 * time.Second)`) is counted, not timed:
  `sleeps` is the number of 10-second backoff sleeps performed.
-/

/-- Outcome of a single `http.Get`: either a response with a status code, or
a transport-level error (DNS/connection failure, the `err != nil` branch). -/
inductive HttpResult where
  | status (code : Nat)
  | transportError
deriving DecidableEq, Repr

/-- Observable outcome of one availability check: the boolean the Go function
returns, the number of HTTP requests it issued, and the number of 10-second
backoff sleeps it performed. -/
structure CheckTrace where
  avail : Bool
  requests : Nat
  sleeps : Nat
deriving DecidableEq, Repr

/-- A maven coordinate, from `MVNPackage` in `src/internal/resolvers/mvn.go`. -/
structure MVNPackage where
  group : String
  artifact : String
  version : String
deriving DecidableEq, Repr

/-- Helper for `mvnIsAvailableInPublic`.  The Go function recurses on
`retry + 1` and gives up when `retry > 3`; we make that recursion structural
on `left = 4 - retry` (which is `0` exactly when `retry > 3`).
`oracle k` is the response to the request issued with retry counter `k`;
`notAvail k` models `NpmResponse.NotAvailable()` on the body of that
response (the "all versions unpublished" JSON inspection). -/
def mvnAvailGo (oracle : Nat → HttpResult) (notAvail : Nat → Bool)
    (pkg : MVNPackage) : Nat → Nat → CheckTrace
  | 0, _ => ⟨false, 0, 0⟩
  | _left + 1, retry =>
    if pkg.group = "" then ⟨true, 0, 0⟩
    else
      match oracle retry with
      | HttpResult.transportError => ⟨false, 1, 0⟩
      | HttpResult.status c =>
        if c = 200 then
          if notAvail retry then ⟨false, 1, 0⟩ else ⟨true, 1, 0⟩
        else if c = 429 then
          let rest := mvnAvailGo oracle notAvail pkg _left (retry + 1)
          ⟨rest.avail, rest.requests + 1, rest.sleeps + 1⟩
        else ⟨false, 1, 0⟩

/-- `MVNLookup.isAvailableInPublic` (src/internal/resolvers/mvn.go:106-146):
`retry > 3` exhausts the retries (warning, false); an empty group is treated
as available with no request; 200 is available unless the body reports all
versions unpublished; 429 sleeps 10s and retries with `retry + 1`; any other
status, or a transport error, is unavailable immediately. -/
def mvnIsAvailableInPublic (oracle : Nat → HttpResult) (notAvail : Nat → Bool)
    (pkg : MVNPackage) (retry : Nat) : CheckTrace :=
  mvnAvailGo oracle notAvail pkg (4 - retry) retry

/-- `MVNLookup.PackagesNotInPublic` (mvn.go:93-101) plus a request log:
first component is the returned `notavail` slice (`group ++ "/" ++ artifact`
for each unavailable package, in manifest order), second component records
the package name once per HTTP request issued on its behalf.  Each package
is checked by `isAvailableInPublic(pkg, 0)`. -/
def mvnScan (oracle : MVNPackage → Nat → HttpResult)
    (notAvail : MVNPackage → Nat → Bool) :
    List MVNPackage → List String × List String
  | [] => ([], [])
  | pkg :: rest =>
    let tail := mvnScan oracle notAvail rest
    let t := mvnIsAvailableInPublic (oracle pkg) (notAvail pkg) pkg 0
    ((if t.avail then tail.1 else (pkg.group ++ "/" ++ pkg.artifact) :: tail.1),
      List.replicate t.requests (pkg.group ++ "/" ++ pkg.artifact) ++ tail.2)

/-- A composer requirement, from `ComposerPackage` in `src/unnamed/part_006`
(composer.go). -/
structure ComposerPackage where
  name : String
  version : String
deriving DecidableEq, Repr

/-- Helper for `composerIsAvailableInPublic`; same structural-recursion
transformation as `mvnAvailGo` (`left = 4 - retry`). -/
def composerAvailGo (oracle : Nat → HttpResult) : Nat → Nat → CheckTrace
  | 0, _ => ⟨false, 0, 0⟩
  | _left + 1, retry =>
    match oracle retry with
    | HttpResult.transportError => ⟨false, 1, 0⟩
    | HttpResult.status c =>
      if c = 200 then ⟨true, 1, 0⟩
      else if c = 429 then
        let rest := composerAvailGo oracle _left (retry + 1)
        ⟨rest.avail, rest.requests + 1, rest.sleeps + 1⟩
      else ⟨false, 1, 0⟩

/-- `ComposerLookup.isAvailableInPublic` (composer.go, src/unnamed/part_006
lines 89-115): `retry > 3` exhausts the retries; 200 is available; 429 sleeps
10s and retries with `retry + 1`; any other status, or a transport error, is
unavailable immediately. -/
def composerIsAvailableInPublic (oracle : Nat → HttpResult) (retry : Nat) :
    CheckTrace :=
  composerAvailGo oracle (4 - retry) retry

/-- `strings.HasPrefix (s, p)`. -/
def goStartsWith : List Char → List Char → Bool
  | _, [] => true
  | [], _ :: _ => false
  | c :: cs, p :: ps => c == p && goStartsWith cs ps

/-- `strings.ToLower`, restricted to ASCII case mapping (`Char.toLower`);
the claims only exercise ASCII version strings. -/
def goToLower (l : List Char) : List Char := l.map Char.toLower

/-- `ComposerLookup.localReference`: version prefixed `file:`
(case-insensitive). -/
def localReference (v : String) : Bool :=
  goStartsWith (goToLower v.toList) ("file:".toList)

/-- `ComposerLookup.urlReference`: version prefixed `http:` or `https:`
(case-insensitive). -/
def urlReference (v : String) : Bool :=
  goStartsWith (goToLower v.toList) ("http:".toList) ||
    goStartsWith (goToLower v.toList) ("https:".toList)

/-- The `gitResources` prefixes of `ComposerLookup.gitReference`. -/
def gitResources : List String := ["git+ssh:", "git+http:", "git+https:", "git:"]

/-- `ComposerLookup.gitReference`: version prefixed by one of
`gitResources` (case-insensitive). -/
def gitReference (v : String) : Bool :=
  gitResources.any fun r => goStartsWith (goToLower v.toList) r.toList

/-- `ComposerLookup.PackagesNotInPublic` (part_006 lines 73-84) plus a request
log: packages whose version is a local/url/git reference are skipped with
`continue` (no request, no report); the rest are checked with
`isAvailableInPublic(name, 0)` and the unavailable ones collected.  The second
component records the package name once per HTTP request issued for it. -/
def composerScan (oracle : ComposerPackage → Nat → HttpResult) :
    List ComposerPackage → List String × List String
  | [] => ([], [])
  | pkg :: rest =>
    let tail := composerScan oracle rest
    if localReference pkg.version || urlReference pkg.version ||
        gitReference pkg.version then tail
    else
      let t := composerIsAvailableInPublic (oracle pkg) 0
      ((if t.avail then tail.1 else pkg.name :: tail.1),
        List.replicate t.requests pkg.name ++ tail.2)

/-- `PythonLookup.isAvailableInPublic` (src/internal/resolvers/pip.go:98-114):
one `http.Get`; a transport error is unavailable immediately; 200 is
available; every other status (429 included) is unavailable.  There is no
retry and no sleep of any kind in this function. -/
def pipIsAvailableInPublic (r : HttpResult) : CheckTrace :=
  match r with
  | HttpResult.transportError => ⟨false, 1, 0⟩
  | HttpResult.status c => if c = 200 then ⟨true, 1, 0⟩ else ⟨false, 1, 0⟩

/-- The oracle of a registry that answers 429 (rate limited) to every
request. -/
def all429 : Nat → HttpResult := fun _ => HttpResult.status 429

/-- A concrete maven package used in concrete evaluations. -/
def examplePkg : MVNPackage := ⟨"com.example", "app", "1.0.0"⟩

/-- C1 counterexample.  The claim says every ecosystem retries a 429 with a
10s backoff, capped at 3 attempts total, so that a 4th consecutive 429 never
occurs.  On the code: the maven check against an always-429 registry issues
exactly 4 HTTP requests (each answered 429), refuting the 3-attempt cap and
the impossibility of a 4th consecutive 429; and the pip check does not retry
a 429 at all (one request, no sleep, immediately unavailable). -/
theorem retry429_claim_counterexample :
    (mvnIsAvailableInPublic all429 (fun _ => false) examplePkg 0).requests = 4 ∧
    ¬ (mvnIsAvailableInPublic all429 (fun _ => false) examplePkg 0).requests ≤ 3 ∧
    pipIsAvailableInPublic (HttpResult.status 429) = ⟨false, 1, 0⟩ := by
  refine ⟨by decide, by decide, by decide⟩

/-- C1 amended.  What the code does on persistent 429s: the maven and
composer checks sleep 10s and retry, giving up only when the retry counter
exceeds 3, so a check started at retry 0 against a registry answering 429 to
its first four requests makes exactly 4 HTTP attempts and 4 backoff sleeps
and then reports the package unavailable (with a warning); the pip check
never retries: a 429 yields unavailable immediately, with one request and no
sleep. -/
theorem retry429_amended (oracle : Nat → HttpResult) (notAvail : Nat → Bool)
    (pkg : MVNPackage) (h : pkg.group ≠ "")
    (h429 : ∀ k, k < 4 → oracle k = HttpResult.status 429) :
    mvnIsAvailableInPublic oracle notAvail pkg 0 = ⟨false, 4, 4⟩ ∧
    composerIsAvailableInPublic oracle 0 = ⟨false, 4, 4⟩ ∧
    pipIsAvailableInPublic (HttpResult.status 429) = ⟨false, 1, 0⟩ := by
  have h0 := h429 0 (by omega)
  have h1 := h429 1 (by omega)
  have h2 := h429 2 (by omega)
  have h3 := h429 3 (by omega)
  refine ⟨?_, ?_, by decide⟩
  · simp [mvnIsAvailableInPublic, mvnAvailGo, h, h0, h1, h2, h3]
  · simp [composerIsAvailableInPublic, composerAvailGo, h0, h1, h2, h3]

/-- Witness for `retry429_amended` at the concrete always-429 oracle and the
concrete package `examplePkg`. -/
theorem retry429_amended_witness :
    (examplePkg.group ≠ "" ∧ ∀ k, k < 4 → all429 k = HttpResult.status 429) ∧
    (mvnIsAvailableInPublic all429 (fun _ => false) examplePkg 0 = ⟨false, 4, 4⟩ ∧
      composerIsAvailableInPublic all429 0 = ⟨false, 4, 4⟩ ∧
      pipIsAvailableInPublic (HttpResult.status 429) = ⟨false, 1, 0⟩) :=
  ⟨⟨by decide, fun _ _ => rfl⟩,
    retry429_amended all429 (fun _ => false) examplePkg (by decide)
      (fun _ _ => rfl)⟩

/-- C8: a transport-level error on the HTTP GET makes the package unavailable
immediately, with exactly one request (the failed one) and no sleep, in every
resolver present in the sources (maven, composer, pip); and a maven or
composer check only ever issues a second request when its first response was
a 429 — only 429 is retried. -/
theorem transport_error_no_retry (oracle oracleC : Nat → HttpResult)
    (notAvail : Nat → Bool) (pkg : MVNPackage) (h : pkg.group ≠ "")
    (hm : oracle 0 = HttpResult.transportError)
    (hc : oracleC 0 = HttpResult.transportError) :
    mvnIsAvailableInPublic oracle notAvail pkg 0 = ⟨false, 1, 0⟩ ∧
    composerIsAvailableInPublic oracleC 0 = ⟨false, 1, 0⟩ ∧
    pipIsAvailableInPublic HttpResult.transportError = ⟨false, 1, 0⟩ ∧
    (∀ (o : Nat → HttpResult) (na : Nat → Bool) (q : MVNPackage),
      2 ≤ (mvnIsAvailableInPublic o na q 0).requests →
        o 0 = HttpResult.status 429) ∧
    (∀ (o : Nat → HttpResult),
      2 ≤ (composerIsAvailableInPublic o 0).requests →
        o 0 = HttpResult.status 429) := by
  refine ⟨?_, ?_, by decide, ?_, ?_⟩
  · simp [mvnIsAvailableInPublic, mvnAvailGo, h, hm]
  · simp [composerIsAvailableInPublic, composerAvailGo, hc]
  · intro o na q hreq
    by_cases hg : q.group = ""
    · simp [mvnIsAvailableInPublic, mvnAvailGo, hg] at hreq
    · cases ho : o 0 with
      | transportError =>
        simp [mvnIsAvailableInPublic, mvnAvailGo, hg, ho] at hreq
      | status c =>
        by_cases hc200 : c = 200
        · subst hc200
          simp [mvnIsAvailableInPublic, mvnAvailGo, hg, ho] at hreq
          cases hna : na 0 <;> simp [hna] at hreq
        · by_cases hc429 : c = 429
          · subst hc429; rfl
          · simp [mvnIsAvailableInPublic, mvnAvailGo, hg, ho, hc200, hc429]
              at hreq
  · intro o hreq
    cases ho : o 0 with
    | transportError =>
      simp [composerIsAvailableInPublic, composerAvailGo, ho] at hreq
    | status c =>
      by_cases hc200 : c = 200
      · subst hc200
        simp [composerIsAvailableInPublic, composerAvailGo, ho] at hreq
      · by_cases hc429 : c = 429
        · subst hc429; rfl
        · simp [composerIsAvailableInPublic, composerAvailGo, ho, hc200,
            hc429] at hreq

/-- The oracle of a registry whose connection always fails. -/
def allDown : Nat → HttpResult := fun _ => HttpResult.transportError

/-- Witness for `transport_error_no_retry` at the concrete always-failing
oracle and the concrete package `examplePkg`. -/
theorem transport_error_no_retry_witness :
    (examplePkg.group ≠ "" ∧ allDown 0 = HttpResult.transportError) ∧
    (mvnIsAvailableInPublic allDown (fun _ => false) examplePkg 0 = ⟨false, 1, 0⟩ ∧
      composerIsAvailableInPublic allDown 0 = ⟨false, 1, 0⟩) := by
  have h := transport_error_no_retry allDown allDown (fun _ => false)
    examplePkg (by decide) rfl rfl
  exact ⟨⟨by decide, rfl⟩, h.1, h.2.1⟩

/-- C10: a maven package with an empty group is treated as available by
`isAvailableInPublic` without any HTTP request (and no sleep), for any
registry behavior; consequently `PackagesNotInPublic` neither reports it nor
contacts the registry for it: the scan of `pkg :: rest` equals the scan of
`rest`. -/
theorem mvn_empty_group_trusted (oracle : MVNPackage → Nat → HttpResult)
    (notAvail : MVNPackage → Nat → Bool) (pkg : MVNPackage)
    (h : pkg.group = "") (rest : List MVNPackage) :
    mvnIsAvailableInPublic (oracle pkg) (notAvail pkg) pkg 0 = ⟨true, 0, 0⟩ ∧
    mvnScan oracle notAvail (pkg :: rest) = mvnScan oracle notAvail rest := by
  have havail :
      mvnIsAvailableInPublic (oracle pkg) (notAvail pkg) pkg 0 = ⟨true, 0, 0⟩ := by
    simp [mvnIsAvailableInPublic, mvnAvailGo, h]
  refine ⟨havail, ?_⟩
  simp [mvnScan, havail]

/-- A concrete maven package with an empty group. -/
def emptyGroupPkg : MVNPackage := ⟨"", "internal-lib", "1.0.0"⟩

/-- Witness for `mvn_empty_group_trusted` at a concrete empty-group package,
with a registry that would answer 404 to everything. -/
theorem mvn_empty_group_trusted_witness :
    (emptyGroupPkg.group = "") ∧
    (mvnIsAvailableInPublic (fun _ => HttpResult.status 404) (fun _ => false)
        emptyGroupPkg 0 = ⟨true, 0, 0⟩ ∧
      mvnScan (fun _ _ => HttpResult.status 404) (fun _ _ => false)
          [emptyGroupPkg] =
        mvnScan (fun _ _ => HttpResult.status 404) (fun _ _ => false) []) :=
  ⟨rfl, mvn_empty_group_trusted (fun _ _ => HttpResult.status 404)
    (fun _ _ => false) emptyGroupPkg rfl []⟩

/-- `strings.TrimSpace`, restricted to ASCII whitespace (`Char.isWhitespace`
covers space, tab, CR, LF; Go additionally trims a few rarer code points that
none of the claims exercise). -/
def goTrimSpace (l : List Char) : List Char :=
  ((l.dropWhile Char.isWhitespace).reverse.dropWhile Char.isWhitespace).reverse

/-- `strings.HasSuffix (s, suffix)`. -/
def goEndsWith (s suffix : List Char) : Bool :=
  goStartsWith s.reverse suffix.reverse

/-- `strings.Split (s, sep)` for a one-character separator: the pieces
between separators, empties included. -/
def goSplitOn (sep : Char) : List Char → List (List Char)
  | [] => [[]]
  | c :: cs =>
    let r := goSplitOn sep cs
    if c == sep then [] :: r
    else
      match r with
      | [] => [[c]]
      | h :: t => (c :: h) :: t

/-- The delimiter runes of `PythonLookup.pipSplit`
(src/internal/resolvers/pip.go:81-93), in source order. -/
def pipDelims : List Char := ['=', '<', '>', '!', ' ', '~', '#', '[']

/-- `PythonLookup.pipSplit` (via `inSlice`): is the rune a delimiter. -/
def pipSplit (c : Char) : Bool := pipDelims.contains c

/-- Worker for `goFieldsFunc`: `acc` is the reversed current field. -/
def fieldsAux (f : Char → Bool) : List Char → List Char → List (List Char)
  | [], acc => if acc.isEmpty then [] else [acc.reverse]
  | c :: cs, acc =>
    if f c then
      if acc.isEmpty then fieldsAux f cs []
      else acc.reverse :: fieldsAux f cs []
    else fieldsAux f cs (c :: acc)

/-- `strings.FieldsFunc (s, f)`: the maximal runs of non-delimiter
characters, in order, empty fields dropped. -/
def goFieldsFunc (f : Char → Bool) (s : List Char) : List (List Char) :=
  fieldsAux f s []

/-- The loop body of `PythonLookup.ReadPackagesFromFile`
(src/internal/resolvers/pip.go:39-66).  `line` is the pending accumulated
logical line; the list is the remaining physical lines.  Each physical line
is trimmed; a `#`-prefixed line is skipped; an empty line is skipped; a line
ending in a backslash is joined (without the backslash) into the pending
line; otherwise the pending line plus this line is tokenized with
`FieldsFunc(pipSplit)` and the first field, trimmed, becomes a package
identifier, after which the pending line resets.  A pending line left over
at end of input is dropped, as in the source. -/
def pipProcessLines : List Char → List (List Char) → List (List Char)
  | _, [] => []
  | line, l :: rest =>
    let t := goTrimSpace l
    if goStartsWith t ['#'] then pipProcessLines line rest
    else if t.isEmpty then pipProcessLines line rest
    else if goEndsWith t ['\\'] then pipProcessLines (line ++ t.dropLast) rest
    else
      match goFieldsFunc pipSplit (line ++ t) with
      | [] => pipProcessLines [] rest
      | fst :: _ => goTrimSpace fst :: pipProcessLines [] rest

/-- `PythonLookup.ReadPackagesFromFile` on raw file content: split on
newlines, then run the line loop with an empty pending line. -/
def pipReadPackagesFromFile (content : List Char) : List (List Char) :=
  pipProcessLines [] (goSplitOn '\n' content)

theorem length_dropWhile_le' (p : Char → Bool) (l : List Char) :
    (l.dropWhile p).length ≤ l.length := by
  induction l with
  | nil => simp
  | cons c cs ih =>
    by_cases h : p c
    · rw [List.dropWhile_cons_of_pos h]
      exact Nat.le_trans ih (by simp)
    · rw [List.dropWhile_cons_of_neg h]

theorem dropWhile_eq_self_of_length (p : Char → Bool) (l : List Char)
    (h : (l.dropWhile p).length = l.length) : l.dropWhile p = l := by
  cases l with
  | nil => rfl
  | cons c cs =>
    by_cases hc : p c
    · rw [List.dropWhile_cons_of_pos hc] at h ⊢
      have := length_dropWhile_le' p cs
      simp at h
      omega
    · rw [List.dropWhile_cons_of_neg hc]

theorem trim_self_dropWhile {l : List Char} (h : goTrimSpace l = l) :
    l.dropWhile Char.isWhitespace = l ∧
      l.reverse.dropWhile Char.isWhitespace = l.reverse := by
  unfold goTrimSpace at h
  have hlen1 :
      (((l.dropWhile Char.isWhitespace).reverse.dropWhile
        Char.isWhitespace).reverse).length = l.length := by rw [h]
  have hle1 := length_dropWhile_le' Char.isWhitespace
    (l.dropWhile Char.isWhitespace).reverse
  have hle2 := length_dropWhile_le' Char.isWhitespace l
  simp at hlen1
  have hfix : l.dropWhile Char.isWhitespace = l :=
    dropWhile_eq_self_of_length _ _ (by simp at hle1; omega)
  refine ⟨hfix, ?_⟩
  rw [hfix] at h
  have hlen2 : ((l.reverse.dropWhile Char.isWhitespace).reverse).length =
      l.length := by rw [h]
  simp at hlen2
  exact dropWhile_eq_self_of_length _ _ (by simp [hlen2])

theorem dropWhile_head_false {p : Char → Bool} {l : List Char} {c : Char}
    {cs : List Char} (h : l.dropWhile p = c :: cs) : p c = false := by
  induction l with
  | nil => simp at h
  | cons a as ih =>
    by_cases ha : p a
    · rw [List.dropWhile_cons_of_pos ha] at h
      exact ih h
    · rw [List.dropWhile_cons_of_neg ha] at h
      cases h
      simpa using ha

theorem goTrimSpace_concat_backslash {pre : List Char}
    (h : goTrimSpace pre = pre) :
    goTrimSpace (pre ++ ['\\']) = pre ++ ['\\'] := by
  have step1 : (pre ++ ['\\']).dropWhile Char.isWhitespace = pre ++ ['\\'] := by
    cases pre with
    | nil => decide
    | cons c cs =>
      have hc : Char.isWhitespace c = false := by
        have := (trim_self_dropWhile h).1
        cases hd : Char.isWhitespace c
        · rfl
        · rw [List.dropWhile_cons_of_pos hd] at this
          have := congrArg List.length this
          have hle := length_dropWhile_le' Char.isWhitespace cs
          simp at this
          omega
      rw [List.cons_append]
      exact List.dropWhile_cons_of_neg (by simp [hc])
  have step2 : ('\\' :: pre.reverse).dropWhile Char.isWhitespace =
      '\\' :: pre.reverse :=
    List.dropWhile_cons_of_neg (by decide)
  unfold goTrimSpace
  rw [step1]
  rw [show (pre ++ ['\\']).reverse = '\\' :: pre.reverse by simp]
  rw [step2]
  simp

theorem goStartsWith_concat_hash {pre : List Char}
    (h : goStartsWith pre ['#'] = false) :
    goStartsWith (pre ++ ['\\']) ['#'] = false := by
  cases pre with
  | nil => decide
  | cons c cs => simpa [goStartsWith] using h

theorem goEndsWith_concat_backslash (pre : List Char) :
    goEndsWith (pre ++ ['\\']) ['\\'] = true := by
  simp [goEndsWith, goStartsWith]

theorem fieldsAux_chunk (f : Char → Bool) (chunk : List Char) :
    ∀ (rest acc : List Char), (∀ c ∈ chunk, f c = false) →
      fieldsAux f (chunk ++ rest) acc = fieldsAux f rest (chunk.reverse ++ acc) := by
  induction chunk with
  | nil => intro rest acc _; simp
  | cons c cs ih =>
    intro rest acc h
    have hc : f c = false := h c (by simp)
    rw [List.cons_append, show fieldsAux f (c :: (cs ++ rest)) acc =
      fieldsAux f (cs ++ rest) (c :: acc) by simp [fieldsAux, hc]]
    rw [ih rest (c :: acc) (fun x hx => h x (by simp [hx]))]
    simp

theorem goFieldsFunc_head (f : Char → Bool) (c : Char) (cs : List Char)
    (hc : f c = false) :
    ∃ fs, goFieldsFunc f (c :: cs) =
      ((c :: cs).takeWhile (fun x => !f x)) :: fs := by
  have hsplit := List.takeWhile_append_dropWhile (p := fun x => !f x)
    (l := c :: cs)
  have htw : ∀ x ∈ (c :: cs).takeWhile (fun x => !f x), f x = false := by
    intro x hx
    have := List.mem_takeWhile_imp hx
    simpa using this
  have htwne : (c :: cs).takeWhile (fun x => !f x) =
      c :: cs.takeWhile (fun x => !f x) :=
    List.takeWhile_cons_of_pos (by simp [hc])
  have hmain : goFieldsFunc f (c :: cs) =
      fieldsAux f ((c :: cs).dropWhile (fun x => !f x))
        ((c :: cs).takeWhile (fun x => !f x)).reverse := by
    unfold goFieldsFunc
    conv_lhs => rw [← hsplit]
    rw [fieldsAux_chunk f _ _ _ htw]
    simp
  cases hdw : (c :: cs).dropWhile (fun x => !f x) with
  | nil =>
    refine ⟨[], ?_⟩
    rw [hmain, hdw]
    simp [fieldsAux, htwne]
  | cons d ds =>
    have hd : f d = true := by
      have := dropWhile_head_false hdw
      simpa using this
    refine ⟨fieldsAux f ds [], ?_⟩
    rw [hmain, hdw]
    simp [fieldsAux, hd, htwne]

/-- C6: the pip requirements parser.  (1) A physical line ending in a
backslash (already trimmed, not a comment) is joined, without the backslash,
into the pending logical line before any tokenizing.  (2) A line whose
trimmed form begins with `#` is skipped.  (3) A complete logical line whose
first character is not a delimiter yields as identifier its maximal prefix
free of the delimiters `= < > ! space ~ # [` — i.e. the line is split at the
first delimiter occurrence and the leading token, trimmed, is the package
identifier.  (4) `"requests==2.31.0"` parses to the identifier `requests`
with no version retained.  (5) `"foo==1.0\` followed by the line `.0`
parses to the identifier `foo`. -/
theorem pip_requirements_parsing :
    (∀ (line pre : List Char) (rest : List (List Char)),
      goTrimSpace pre = pre → goStartsWith pre ['#'] = false →
      pipProcessLines line ((pre ++ ['\\']) :: rest) =
        pipProcessLines (line ++ pre) rest) ∧
    (∀ (line l : List Char) (rest : List (List Char)),
      goStartsWith (goTrimSpace l) ['#'] = true →
      pipProcessLines line (l :: rest) = pipProcessLines line rest) ∧
    (∀ (line l : List Char) (rest : List (List Char)) (c : Char)
      (cs : List Char),
      goStartsWith (goTrimSpace l) ['#'] = false →
      goEndsWith (goTrimSpace l) ['\\'] = false →
      goTrimSpace l ≠ [] →
      line ++ goTrimSpace l = c :: cs → pipSplit c = false →
      pipProcessLines line (l :: rest) =
        goTrimSpace ((line ++ goTrimSpace l).takeWhile (fun x => !pipSplit x)) ::
          pipProcessLines [] rest) ∧
    pipReadPackagesFromFile ("requests==2.31.0".toList) =
      [("requests".toList)] ∧
    pipReadPackagesFromFile ("foo==1.0\\".toList ++ '\n' :: (".0".toList)) =
      [("foo".toList)] := by
  refine ⟨?_, ?_, ?_, by decide, by decide⟩
  · intro line pre rest htrim hhash
    have h1 := goTrimSpace_concat_backslash htrim
    have h2 := goStartsWith_concat_hash hhash
    have h3 := goEndsWith_concat_backslash pre
    have h4 : (pre ++ ['\\']).isEmpty = false := by
      cases pre <;> rfl
    simp only [pipProcessLines, h1, h2, h3, h4, Bool.false_eq_true, if_false,
      if_true, List.dropLast_concat]
  · intro line l rest hhash
    simp only [pipProcessLines, hhash, if_true]
  · intro line l rest c cs hhash hbs hne0 hcons hdelim
    obtain ⟨fs, hfields⟩ := goFieldsFunc_head pipSplit c cs hdelim
    rw [← hcons] at hfields
    have hne : (goTrimSpace l).isEmpty = false := by
      cases hl : goTrimSpace l with
      | nil => exact absurd hl hne0
      | cons a as => rfl
    rw [show pipProcessLines line (l :: rest) =
      match goFieldsFunc pipSplit (line ++ goTrimSpace l) with
      | [] => pipProcessLines [] rest
      | fst :: _ => goTrimSpace fst :: pipProcessLines [] rest by
        simp only [pipProcessLines, hhash, hbs, hne, Bool.false_eq_true,
          if_false]]
    rw [hfields]

/-- Witness for `pip_requirements_parsing`: the continuation conjunct at the
concrete split line `foo==1.0\` / `.0`, and the comment-skip conjunct at a
concrete `#` line. -/
theorem pip_requirements_parsing_witness :
    (goTrimSpace ("foo==1.0".toList) = "foo==1.0".toList ∧
      goStartsWith ("foo==1.0".toList) ['#'] = false) ∧
    pipProcessLines [] (("foo==1.0".toList ++ ['\\']) :: [(".0".toList)]) =
      pipProcessLines ("foo==1.0".toList) [(".0".toList)] ∧
    goStartsWith (goTrimSpace ("# a comment".toList)) ['#'] = true ∧
    pipProcessLines [] (("# a comment".toList) :: [("requests==2.31.0".toList)]) =
      pipProcessLines [] [("requests==2.31.0".toList)] :=
  ⟨⟨by decide, by decide⟩,
    pip_requirements_parsing.1 [] ("foo==1.0".toList) [(".0".toList)]
      (by decide) (by decide),
    by decide,
    pip_requirements_parsing.2.1 [] ("# a comment".toList)
      [("requests==2.31.0".toList)] (by decide)⟩

/-- One maven dependency entry as `xml.Unmarshal` produces it for the
project model used in `MVNLookup.ReadPackagesFromFile`.  The `MavenProject`
XML binding struct itself is not among the sources (it lives in the missing
npm.go/shared file); its shape here is the one `ReadPackagesFromFile`
dereferences: `Dependencies`, `Build.Plugins` and `Profiles[i].Build.Plugins`,
matching the spec's maven parser rule. -/
structure MavenDependency where
  groupId : String
  artifactId : String
  version : String
deriving DecidableEq, Repr

/-- A `build` section: its plugin list. -/
structure MavenBuild where
  plugins : List MavenDependency
deriving DecidableEq, Repr

/-- A `profile` section: its build. -/
structure MavenProfile where
  build : MavenBuild
deriving DecidableEq, Repr

/-- The unmarshalled POM, as dereferenced by `ReadPackagesFromFile`. -/
structure MavenProject where
  dependencies : List MavenDependency
  build : MavenBuild
  profiles : List MavenProfile
deriving DecidableEq, Repr

/-- `MVNLookup.ReadPackagesFromFile` (src/internal/resolvers/mvn.go:47-88).
`rawfile` is the file content (the read succeeded); `parsed` is the outcome
of the external `xml.Unmarshal` call (`none` = parse error).  A file of
fewer than 10 bytes is skipped with a nil error; an unmarshal error is
logged and also returns nil (the "return nil instead of crashing" branch);
otherwise the dependencies, build plugins and per-profile build plugins are
collected in order.  The second component is the returned `error`. -/
def mvnReadPackagesFromFile (rawfile : List Char)
    (parsed : Option MavenProject) : List MVNPackage × Option String :=
  if rawfile.length < 10 then ([], none)
  else
    match parsed with
    | none => ([], none)
    | some project =>
      ((project.dependencies.map fun d => ⟨d.groupId, d.artifactId, d.version⟩)
        ++ (project.build.plugins.map fun d =>
              ⟨d.groupId, d.artifactId, d.version⟩)
        ++ (project.profiles.map fun pr =>
              pr.build.plugins.map fun d =>
                ⟨d.groupId, d.artifactId, d.version⟩).flatten,
        none)

/-- C7: a pom.xml that is malformed or truncated (the external XML
unmarshaller rejects it), or whose content is under the 10-byte minimum,
yields an empty package list and a nil error — the parse step never
propagates a failure that could abort the scan. -/
theorem mvn_malformed_pom_empty (rawfile : List Char)
    (parsed : Option MavenProject)
    (h : rawfile.length < 10 ∨ parsed = none) :
    mvnReadPackagesFromFile rawfile parsed = ([], none) := by
  unfold mvnReadPackagesFromFile
  rcases h with h | h
  · simp [h]
  · subst h
    by_cases hlen : rawfile.length < 10 <;> simp [hlen]

/-- Witness for `mvn_malformed_pom_empty` at a concrete truncated POM (whose
unmarshal fails) and at a concrete under-10-byte file. -/
theorem mvn_malformed_pom_empty_witness :
    (((("<project><dependencies><depend".toList)).length < 10 ∨
        (none : Option MavenProject) = none) ∧
      mvnReadPackagesFromFile ("<project><dependencies><depend".toList)
        (none : Option MavenProject) = ([], none)) ∧
    ((("<pom/>".toList)).length < 10 ∨
        (none : Option MavenProject) = none) ∧
      mvnReadPackagesFromFile ("<pom/>".toList) (none : Option MavenProject) =
        ([], none) :=
  ⟨⟨Or.inr rfl, mvn_malformed_pom_empty _ _ (Or.inr rfl)⟩,
    Or.inl (by decide), mvn_malformed_pom_empty _ _ (Or.inl (by decide))⟩

/-- The composer requirements of Scenario B:
`require {"monolog/monolog": "^3.0", "internal/php-package": "file:./local"}`
(Go map iteration order is unspecified; we fix the manifest order). -/
def scenarioB : List ComposerPackage :=
  [⟨"monolog/monolog", "^3.0"⟩, ⟨"internal/php-package", "file:./local"⟩]

/-- A Packagist that knows `monolog/monolog` (200) and nothing else (404). -/
def scenarioBOracle : ComposerPackage → Nat → HttpResult :=
  fun pkg _ =>
    if pkg.name = "monolog/monolog" then HttpResult.status 200
    else HttpResult.status 404

/-- C5: a composer package whose version is a `file:` (LocalPath), `http(s):`
(DirectURL) or `git*:` (GitRef) reference is skipped by
`PackagesNotInPublic`: the scan of `pkg :: rest` equals the scan of `rest`,
so no HTTP request is ever issued for it (it never enters the request log)
and it can never appear in the not-in-public (vulnerable) list.  In
Scenario B, `internal/php-package` is never checked and only
`monolog/monolog` is resolved (one request), with an empty vulnerable
list. -/
theorem composer_nonregistry_never_checked
    (oracle : ComposerPackage → Nat → HttpResult) (pkg : ComposerPackage)
    (rest : List ComposerPackage)
    (h : (localReference pkg.version || urlReference pkg.version ||
      gitReference pkg.version) = true) :
    composerScan oracle (pkg :: rest) = composerScan oracle rest ∧
    composerScan scenarioBOracle scenarioB = ([], ["monolog/monolog"]) := by
  constructor
  · simp only [composerScan, h, if_true]
  · decide

/-- Witness for `composer_nonregistry_never_checked` at the concrete
`file:./local` package of Scenario B. -/
theorem composer_nonregistry_never_checked_witness :
    (localReference ("file:./local") || urlReference ("file:./local") ||
      gitReference ("file:./local")) = true ∧
    composerScan scenarioBOracle
        [⟨"internal/php-package", "file:./local"⟩] =
      composerScan scenarioBOracle [] :=
  ⟨by decide,
    (composer_nonregistry_never_checked scenarioBOracle
      ⟨"internal/php-package", "file:./local"⟩ [] (by decide)).1⟩

/-- The star-consumption loop of the glob matcher: try to match the rest of
the pattern at every suffix of the name reachable by letting `*` absorb
non-separator characters. -/
def globStarLoop (matchRest : List Char → Except Unit Bool) :
    List Char → Except Unit Bool
  | [] =>
    match matchRest [] with
    | Except.error e => Except.error e
    | Except.ok b => Except.ok b
  | c :: cs =>
    match matchRest (c :: cs) with
    | Except.error e => Except.error e
    | Except.ok true => Except.ok true
    | Except.ok false =>
      if c == '/' then Except.ok false else globStarLoop matchRest cs

/-- Fuel-indexed worker for `globMatch`; the fuel bounds the pattern-consuming
recursion depth (each step drops one pattern character). -/
def globGo : Nat → List Char → List Char → Except Unit Bool
  | 0, _, _ => Except.error ()
  | fuel + 1, pattern, name =>
    match pattern with
    | [] => Except.ok name.isEmpty
    | '*' :: ps => globStarLoop (globGo fuel ps) name
    | '[' :: _ => Except.error ()
    | '\\' :: _ => Except.error ()
    | p :: ps =>
      match name with
      | [] => Except.ok false
      | c :: cs => if p == c then globGo fuel ps cs else Except.ok false

/-- Modelled from the spec: `path/filepath.Match` (the external standard
library used by `removeSafe`), restricted to the features the spec
exercises — literal characters and the `*` wildcard, which matches any run
of non-separator (`/`) characters; a pattern containing a character class
`[` (such as the malformed, unclosed `"["`, which Go rejects with
`ErrBadPattern`) or an escape `\` is reported as a malformed pattern. -/
def globMatch (pattern name : String) : Except Unit Bool :=
  globGo (pattern.toList.length + 1) pattern.toList name.toList

/-- The inner pattern loop of `removeSafe` (src/pkg/web/web.go:971-996 and
identically src/pkg/github/github.go:420-445): a match error is logged and
skipped with `continue` (treated as no match for that pattern); a successful
match stops the loop. -/
def matchesAny (matchFn : String → String → Except Unit Bool)
    (pkg : String) : List String → Bool
  | [] => false
  | s :: rest =>
    match matchFn s pkg with
    | Except.error _ => matchesAny matchFn pkg rest
    | Except.ok true => true
    | Except.ok false => matchesAny matchFn pkg rest

/-- `removeSafe (packages, safeSpaces)`: with no configured patterns the
slice is returned as is; otherwise every package matching some pattern is
dropped and the rest keep their order.  The pattern matcher (Go
`filepath.Match`) is a parameter. -/
def removeSafe (matchFn : String → String → Except Unit Bool)
    (packages safeSpaces : List String) : List String :=
  if safeSpaces.isEmpty then packages
  else packages.filter fun pkg => !matchesAny matchFn pkg safeSpaces

/-- `types.ScanResult` (src/unnamed/part_007).  The wall-clock fields
(`Timestamp`, `Duration`) are not modelled; `Finalize` computes `Total`.
Metadata values are rendered as strings. -/
structure ScanResult where
  target : String
  scanType : String
  language : String
  vulnerable : List String
  safe : List String
  total : Nat
  metadata : List (String × String)
deriving DecidableEq, Repr

/-- `types.NewScanResult`. -/
def newScanResult (target scanType language : String) : ScanResult :=
  ⟨target, scanType, language, [], [], 0, []⟩

/-- `ScanResult.AddVulnerable`. -/
def addVulnerable (sr : ScanResult) (pkg : String) : ScanResult :=
  { sr with vulnerable := sr.vulnerable ++ [pkg] }

/-- `ScanResult.AddSafe` (defined in the sources, never called by any scan
flow). -/
def addSafe (sr : ScanResult) (pkg : String) : ScanResult :=
  { sr with safe := sr.safe ++ [pkg] }

/-- `ScanResult.Finalize`: `Total = len(Vulnerable) + len(Safe)`. -/
def finalizeResult (sr : ScanResult) : ScanResult :=
  { sr with total := sr.vulnerable.length + sr.safe.length }

/-- `runScanCommand` (src/pkg/web/web.go:571-625, the local-file scan flow),
from the point where the resolver has produced `PackagesNotInPublic()`
(parameter `notInPublic`): remove safe spaces, add each remaining package as
vulnerable, finalize.  No call adds anything to the safe list. -/
def runScanFlow (matchFn : String → String → Except Unit Bool)
    (notInPublic safeSpaces : List String)
    (filename language : String) : ScanResult :=
  let result := newScanResult filename ("file") language
  let vulnerable := removeSafe matchFn notInPublic safeSpaces
  finalizeResult (vulnerable.foldl addVulnerable result)

/-- Modelled from the spec: the npm parser (npm.go is not among the sources)
applied to the Scenario A manifest
`{"dependencies": {"lodash": "^4.17.21", "@company/private-package": "^2.0.0"}}` —
one reference per dependencies key, in manifest order. -/
def scenarioAPackages : List String := ["lodash", "@company/private-package"]

/-- Modelled from the spec: the npm `PackagesNotInPublic` (npm.go is not
among the sources) — a package is unavailable exactly when its registry
status is not 200 (404 in Scenario A; the all-versions-unpublished nuance is
not exercised by these inputs). -/
def npmPackagesNotInPublicModel (status : String → Nat)
    (pkgs : List String) : List String :=
  pkgs.filter fun p => status p != 200

/-- Scenario A registry: 200 for `lodash`, 404 for everything else. -/
def scenarioAStatus : String → Nat :=
  fun name => if name = "lodash" then 200 else 404

/-- C2, evaluated at the failing input.  Scenario A: the 404 package is
reported vulnerable, but the safe list of the produced ScanResult is empty,
not `["lodash"]` as the claim requires — indeed the scan flow never
populates the safe list for any input, because no flow ever calls
`AddSafe`. -/
theorem scenarioA_safe_never_populated :
    (runScanFlow globMatch
      (npmPackagesNotInPublicModel scenarioAStatus scenarioAPackages) []
      ("package.json") ("npm")).vulnerable = ["@company/private-package"] ∧
    (runScanFlow globMatch
      (npmPackagesNotInPublicModel scenarioAStatus scenarioAPackages) []
      ("package.json") ("npm")).safe = [] ∧
    (∀ (matchFn : String → String → Except Unit Bool)
      (notInPublic safeSpaces : List String) (filename language : String),
      (runScanFlow matchFn notInPublic safeSpaces filename language).safe = []) := by
  refine ⟨by decide, by decide, ?_⟩
  intro matchFn notInPublic safeSpaces filename language
  have hsafe : ∀ (vs : List String) (sr : ScanResult),
      (vs.foldl addVulnerable sr).safe = sr.safe := by
    intro vs
    induction vs with
    | nil => intro sr; rfl
    | cons v vs ih => intro sr; rw [List.foldl_cons, ih]; rfl
  unfold runScanFlow finalizeResult
  simp only [hsafe]
  rfl

/-- The parsed URL as the web scanner uses it: host and base path. -/
structure GoURL where
  host : String
  path : String
deriving DecidableEq, Repr

/-- `Scanner.ScanTarget` URL normalization (src/pkg/web/web.go:43-45):
prepend `https://` unless the target already carries a scheme. -/
def normalizeTarget (target : String) : String :=
  if goStartsWith target.toList ("http://".toList) ||
      goStartsWith target.toList ("https://".toList) then target
  else "https://" ++ target

/-- Modelled from the spec: `net/url.Parse` (external standard library)
restricted to what the scanner reads from it — the host is everything after
the scheme separator up to the first slash, the path the remainder. -/
def parseURL (s : String) : GoURL :=
  let rest :=
    if goStartsWith s.toList ("https://".toList) then s.toList.drop 8
    else if goStartsWith s.toList ("http://".toList) then s.toList.drop 7
    else s.toList
  ⟨(rest.takeWhile fun c => c != '/').asString,
    (rest.dropWhile fun c => c != '/').asString⟩

/-- `path/filepath.Base` restricted to slash-separated non-empty paths: the
last path component. -/
def goPathBase (p : String) : String :=
  ((p.toList.reverse.takeWhile fun c => c != '/').reverse).asString

/-- `path/filepath.Join` of two components, restricted to the shapes the
scanner builds (no `.`/`..` cleaning): empty left component yields the
right one; a left component already ending in `/` is concatenated
directly. -/
def goPathJoin (a b : String) : String :=
  if a = "" then b
  else if goEndsWith a.toList ['/'] then a ++ b
  else a ++ "/" ++ b

/-- `getLanguageFromFile` — the filename → language table, present
identically in src/pkg/web/web.go:258-278 and src/pkg/github/github.go:
367-389; an unknown filename yields the map zero value `""`. -/
def getLanguageFromFile (filePath : String) : String :=
  let fileName := goPathBase filePath
  if fileName = "package.json" then "npm"
  else if fileName = "package-lock.json" then "npm"
  else if fileName = "yarn.lock" then "npm"
  else if fileName = "requirements.txt" then "pip"
  else if fileName = "requirements-dev.txt" then "pip"
  else if fileName = "setup.py" then "pip"
  else if fileName = "pyproject.toml" then "pip"
  else if fileName = "composer.json" then "composer"
  else if fileName = "composer.lock" then "composer"
  else if fileName = "pom.xml" then "mvn"
  else if fileName = "Gemfile" then "rubygems"
  else if fileName = "Gemfile.lock" then "rubygems"
  else if fileName = "gems.rb" then "rubygems"
  else ""

/-- The `commonPaths` table of `getDependencyFilePaths`
(src/pkg/web/web.go:89-103). -/
def commonPaths : List String :=
  ["package.json", "package-lock.json", "yarn.lock", "requirements.txt",
    "requirements-dev.txt", "setup.py", "pyproject.toml", "composer.json",
    "composer.lock", "pom.xml", "Gemfile", "Gemfile.lock", "gems.rb"]

/-- The `languagePaths` table of `getDependencyFilePaths`
(web.go:106-112); unknown languages contribute nothing. -/
def languagePathsFor (lang : String) : List String :=
  if lang = "npm" then ["package.json", "package-lock.json", "yarn.lock"]
  else if lang = "pip" then
    ["requirements.txt", "requirements-dev.txt", "setup.py", "pyproject.toml"]
  else if lang = "composer" then ["composer.json", "composer.lock"]
  else if lang = "mvn" then ["pom.xml"]
  else if lang = "rubygems" then ["Gemfile", "Gemfile.lock", "gems.rb"]
  else []

/-- `Scanner.getDependencyFilePaths` (web.go:85-127): with requested
languages, the union (with duplicates, in order) of their tables; otherwise
the common table. -/
def getDependencyFilePaths (languages : List String) : List String :=
  if languages.isEmpty then commonPaths
  else (languages.map languagePathsFor).flatten

/-- `Scanner.scanDependencyFile` (src/pkg/web/web.go:130-212).
`fetch path` is the outcome of the GET for the joined path (`none` =
transport error, which the caller skips); a non-200 status or an unknown
filename is also skipped (`none`).  `resolve language body` stands for the
chain resolver-for-language / temp file / `ReadPackagesFromFile` /
`PackagesNotInPublic` — the vulnerable identifiers for that manifest body.
Every vulnerable identifier is added to the result unconditionally: this
flow applies no safe-space filtering (there is no safe-space argument
anywhere in `web.Scanner`).  Metadata is recorded and the result
finalized. -/
def webScanDependencyFile (fetch : String → Option (Nat × List Char))
    (resolve : String → List Char → List String)
    (u : GoURL) (filePath : String) : Option ScanResult :=
  let fullPath := goPathJoin u.path filePath
  match fetch fullPath with
  | none => none
  | some (status, body) =>
    if status ≠ 200 then none
    else
      let language := getLanguageFromFile filePath
      if language = "" then none
      else
        let result := newScanResult (u.host ++ ":" ++ filePath) ("web") language
        let vulnerable := resolve language body
        let result := vulnerable.foldl addVulnerable result
        let result := { result with metadata :=
          [("file_path", filePath), ("file_url", fullPath),
            ("file_size", toString body.length),
            ("status_code", toString status)] }
        some (finalizeResult result)

/-- The static `commonDirs` table of `Scanner.deepScan` (web.go:219-222). -/
def commonDirs : List String :=
  ["src/", "lib/", "app/", "web/", "public/", "static/", "api/", "backend/",
    "frontend/", "client/", "server/"]

/-- `Scanner.scanDirectory` (web.go:237-255): probe every dependency file
path under the directory; failures are skipped. -/
def scanDirectoryW (fetch : String → Option (Nat × List Char))
    (resolve : String → List Char → List String)
    (u : GoURL) (dir : String) (languages : List String) : List ScanResult :=
  (getDependencyFilePaths languages).filterMap fun fp =>
    webScanDependencyFile fetch resolve u (goPathJoin dir fp)

/-- `Scanner.deepScan` (web.go:215-234): probe the same filename set under
each of the static one-level common directories.  The `maxDepth` parameter
is received and never used, exactly as in the source. -/
def deepScanW (fetch : String → Option (Nat × List Char))
    (resolve : String → List Char → List String)
    (u : GoURL) (languages : List String) (maxDepth : Nat) : List ScanResult :=
  (commonDirs.map fun dir => scanDirectoryW fetch resolve u dir languages).flatten

/-- `Scanner.ScanTarget` (src/pkg/web/web.go:39-82): normalize the scheme,
parse the URL, probe every candidate path, and append the deep-scan results
when `deep` is set. -/
def scanTarget (fetch : String → Option (Nat × List Char))
    (resolve : String → List Char → List String)
    (target : String) (languages : List String) (deep : Bool)
    (maxDepth : Nat) : List ScanResult :=
  let u := parseURL (normalizeTarget target)
  let base := (getDependencyFilePaths languages).filterMap fun fp =>
    webScanDependencyFile fetch resolve u fp
  if deep then base ++ deepScanW fetch resolve u languages maxDepth else base

/-- C9: `maxDepth` has no effect on the web scanner's output — `ScanTarget`
run with any two values of `maxDepth` (all else equal) produces identical
results, because `deepScan` ignores its `maxDepth` argument and always
probes exactly the static one-level directory list. -/
theorem web_maxDepth_no_effect (fetch : String → Option (Nat × List Char))
    (resolve : String → List Char → List String)
    (target : String) (languages : List String) (deep : Bool)
    (d1 d2 : Nat) :
    scanTarget fetch resolve target languages deep d1 =
      scanTarget fetch resolve target languages deep d2 := rfl

/-- A web server that serves exactly one manifest, `package.json`, at the
target root. -/
def c3Fetch : String → Option (Nat × List Char) := fun p =>
  if p = "package.json" then some (200, "a-manifest-body".toList) else none

/-- A resolver chain whose vulnerable set is `["@company/foo"]` for any
manifest. -/
def c3Resolve : String → List Char → List String := fun _ _ => ["@company/foo"]

/-- C3, evaluated at the failing input.  Where `removeSafe` is applied (the
local-file and GitHub flows) the claim's behavior holds: `"@company/*"`
removes `"@company/foo"` and leaves `"@other/foo"`, and the malformed glob
`"["` is treated as no match rather than being fatal.  But the web flow
applies no safe-space filtering at all: scanning a target whose manifest
yields the vulnerable identifier `"@company/foo"` reports it vulnerable even
though the pattern `"@company/*"` matches it. -/
theorem safeSpace_web_flow_unfiltered :
    removeSafe globMatch ["@company/foo", "@other/foo"] ["@company/*"] =
      ["@other/foo"] ∧
    removeSafe globMatch ["@company/foo"] ["["] = ["@company/foo"] ∧
    globMatch ("@company/*") ("@company/foo") = Except.ok true ∧
    ((webScanDependencyFile c3Fetch c3Resolve ⟨"example.com", ""⟩
        ("package.json")).map fun r => r.vulnerable) =
      some ["@company/foo"] ∧
    (∀ (fetch : String → Option (Nat × List Char))
      (resolve : String → List Char → List String) (u : GoURL)
      (fp : String) (r : ScanResult),
      webScanDependencyFile fetch resolve u fp = some r →
      ∃ body, r.vulnerable = resolve (getLanguageFromFile fp) body) := by
  refine ⟨by decide, by decide, by rfl, by rfl, ?_⟩
  intro fetch resolve u fp r h
  simp only [webScanDependencyFile] at h
  cases hf : fetch (goPathJoin u.path fp) with
  | none =>
    rw [hf] at h
    dsimp only at h
    exact absurd h (by simp)
  | some sb =>
    obtain ⟨status, body⟩ := sb
    rw [hf] at h
    dsimp only at h
    by_cases hs : status ≠ 200
    · rw [if_pos hs] at h
      exact absurd h (by simp)
    · rw [if_neg hs] at h
      by_cases hl : getLanguageFromFile fp = ""
      · rw [if_pos hl] at h
        exact absurd h (by simp)
      · rw [if_neg hl] at h
        injection h with h2
        refine ⟨body, ?_⟩
        have hv : ∀ (vs : List String) (sr : ScanResult),
            (vs.foldl addVulnerable sr).vulnerable = sr.vulnerable ++ vs := by
          intro vs
          induction vs with
          | nil => intro sr; simp
          | cons v vs ih =>
            intro sr
            rw [List.foldl_cons, ih]
            simp [addVulnerable]
        rw [← h2]
        simp [finalizeResult, hv, newScanResult]

/-- A blob as returned by the GitHub blob API (`Git.GetBlob`): its `Content`
field is the base64 text of the file (the API's `encoding` is `base64`). -/
structure GitHubBlob where
  content : List Char
deriving DecidableEq, Repr

/-- `Client.getFileContent` (src/pkg/github/github.go:354-365): returns
`[]byte(blob.GetContent())` — the blob content string exactly as the API
returned it.  Despite the source comment "Decode base64 content"
(github.go:361), no decoding is performed; this is what
`Client.scanDependencyFile` then writes to the temp file for the parser. -/
def getFileContent (blob : GitHubBlob) : List Char := blob.content

/-- Modelled from the spec: the value of one standard base64 alphabet
character (RFC 4648). -/
def b64Val (c : Char) : Nat :=
  if 'A' ≤ c ∧ c ≤ 'Z' then c.toNat - 65
  else if 'a' ≤ c ∧ c ≤ 'z' then c.toNat - 97 + 26
  else if '0' ≤ c ∧ c ≤ '9' then c.toNat - 48 + 52
  else if c = '+' then 62
  else if c = '/' then 63
  else 0

/-- Modelled from the spec: standard base64 decoding of a well-formed
base64 string — four alphabet characters to three bytes, with `=` padding
dropping the trailing byte(s); this is the decoding the spec requires before
blob content is used.  Decoded bytes are represented as the characters with
the corresponding code points. -/
def base64Decode : List Char → List Char
  | a :: b :: c :: d :: rest =>
    let n := b64Val a * 262144 + b64Val b * 4096 +
      (if c = '=' then 0 else b64Val c * 64) +
      (if d = '=' then 0 else b64Val d)
    let bytes := [Char.ofNat (n / 65536), Char.ofNat (n / 256 % 256),
      Char.ofNat (n % 256)]
    (if c = '=' then bytes.take 1
      else if d = '=' then bytes.take 2
      else bytes) ++ base64Decode rest
  | _ => []

/-- The blob the GitHub API returns for a manifest whose decoded content is
the two characters `\x7b\x7d` (an empty JSON object): base64 `e30=`. -/
def exampleBlob : GitHubBlob := ⟨"e30=".toList⟩

/-- C4, evaluated at the failing input.  For the blob whose API content is
the base64 text `e30=`, `getFileContent` returns that base64 text itself;
the decoded manifest would be `\x7b\x7d`, so what is written to the temp
file and handed to the parser is not the decoded content — the blob is never
base64-decoded before use, contrary to the claim (and to the source's own
"Decode base64 content" comment). -/
theorem blob_content_not_decoded :
    getFileContent exampleBlob = "e30=".toList ∧
    base64Decode ("e30=".toList) = "\x7b\x7d".toList ∧
    getFileContent exampleBlob ≠ base64Decode (getFileContent exampleBlob) := by
  refine ⟨rfl, by decide, by decide⟩

/-- The ScanResult the web flow produces for `c3Fetch`/`c3Resolve` at
`package.json`. -/
def c3Result : ScanResult :=
  ⟨"example.com:package.json", "web", "npm", ["@company/foo"], [], 1,
    [("file_path", "package.json"), ("file_url", "package.json"),
      ("file_size", "15"), ("status_code", "200")]⟩

/-- Witness for the hypothesis-bearing conjunct of
`safeSpace_web_flow_unfiltered`, at the concrete one-manifest server. -/
theorem safeSpace_web_flow_unfiltered_witness :
    webScanDependencyFile c3Fetch c3Resolve ⟨"example.com", ""⟩
      ("package.json") = some c3Result ∧
    ∃ body, c3Result.vulnerable =
      c3Resolve (getLanguageFromFile ("package.json")) body :=
  ⟨by decide,
    safeSpace_web_flow_unfiltered.2.2.2.2 c3Fetch c3Resolve
      ⟨"example.com", ""⟩ ("package.json") c3Result (by decide)⟩
